/-
Verification of the slice / shared-buffer core of the Fleece repository
(src/Fleece/API_Impl/FLSlice.cc), as a shallow embedding in Lean 4.

Modelling conventions:
  * A byte is a `Nat` (meaningful values are < 256; `memcmp` compares bytes
    as unsigned values, modelled as the `Int` difference of the first
    differing byte, which realises the C standard's sign contract the way
    common libc implementations do).
  * An `FLSlice` is a pointer (`Option Addr`, `none` = NULL) together with
    the bytes readable through it (`data`); its `size` is `data.length`.
  * The heap of `sharedBuffer` records is a function from record base
    addresses to records, plus a `nextAddr` bound: `malloc` hands out fresh
    records at `nextAddr`, past all previously dispensed memory.
  * `malloc` may fail; operations that allocate take a `mallocOK : Bool`
    parameter selecting the outcome.
  * The reference count is an atomic `uint32_t`; increments and decrements
    are taken modulo 2^32.
  * A fatal precondition violation (`precondition(capacity > 0)`) is
    modelled as the `none` result of an `Option`-valued function.
-/
import Mathlib

abbrev Addr := Nat

/-- Byte-wise comparison of the first `n` bytes, as C `memcmp`: `0` if they
agree, otherwise the `Int` difference of the first differing pair of bytes
(whose sign is the C standard's contract). Reading past the end of either
list yields `0`, which never happens for in-contract calls. -/
def memcmp (a b : List Nat) (n : Nat) : Int :=
  match n, a, b with
  | 0, _, _ => 0
  | _ + 1, [], _ => 0
  | _ + 1, _ :: _, [] => 0
  | n + 1, x :: xs, y :: ys => if x = y then memcmp xs ys n else (x : Int) - (y : Int)

/-- An `FLSlice`: a non-owning view; `buf` is the pointer (`none` = NULL) and
`data` the bytes readable through it, so `size = data.length`. -/
structure FLSlice where
  buf : Option Addr
  data : List Nat
deriving Repr, DecidableEq

def FLSlice.size (s : FLSlice) : Nat := s.data.length

/-- The C function `FLSlice_Equal`: `a.size==b.size && memcmp(a.buf, b.buf, a.size) == 0`. -/
def FLSlice_Equal (a b : FLSlice) : Bool :=
  a.size == b.size && memcmp a.data b.data a.size == 0

/-- The C function `FLSlice_Compare`: compare the common prefix with `memcmp`, falling back
to `-1` / `1` on the length difference when the prefix ties. -/
def FLSlice_Compare (a b : FLSlice) : Int :=
  if a.size = b.size then
    memcmp a.data b.data a.size
  else if a.size < b.size then
    let result := memcmp a.data b.data a.size
    if result ≠ 0 then result else -1
  else
    let result := memcmp a.data b.data b.size
    if result ≠ 0 then result else 1

/-- Modelled from the spec: the reference ordering on byte sequences,
"lexicographic byte-wise ordering by the shorter common prefix, then by
length — if one slice is a prefix of the other, the shorter sorts first;
otherwise ordering follows the first differing byte's unsigned value".
Returns `-1`, `0` or `1`. -/
def listCmp : List Nat → List Nat → Int
  | [], [] => 0
  | [], _ :: _ => -1
  | _ :: _, [] => 1
  | x :: xs, y :: ys =>
    if x < y then -1 else if y < x then 1 else listCmp xs ys

/-- The heap record backing an owning slice (C++ `fleece::sharedBuffer`):
an atomic `uint32_t` reference count followed by the inline payload bytes
(`_buf`). -/
structure sharedBuffer where
  _refCount : Nat
  _buf : List Nat
deriving Repr, DecidableEq

def UINT32_MOD : Nat := 2 ^ 32

/-- The constant `offsetof(sharedBuffer, _buf)`: the payload begins right after the
4-byte reference count, so a record at base address `a` has its payload at
`a + 4`. -/
def bufOffset : Nat := 4

/-- The method `sharedBuffer::retain`: `++_refCount`, in `uint32_t` arithmetic. -/
def sharedBuffer.retain (sb : sharedBuffer) : sharedBuffer :=
  { sb with _refCount := (sb._refCount + 1) % UINT32_MOD }

/-- The method `sharedBuffer::release`: `if (--_refCount == 0) delete this;` in
`uint32_t` arithmetic; `none` means the record was freed. -/
def sharedBuffer.release (sb : sharedBuffer) : Option sharedBuffer :=
  let c := (sb._refCount + (UINT32_MOD - 1)) % UINT32_MOD
  if c = 0 then none else some { sb with _refCount := c }

/-- The heap of shared buffers: the live records by base address, and the
next fresh base address `malloc` would hand out (a fresh allocation never
overlaps previously dispensed memory). -/
structure Heap where
  recs : Addr → Option sharedBuffer
  nextAddr : Addr

/-- The allocator `operator new(basicSize, bufferSize)` (`malloc`) followed by the
`sharedBuffer` construction: a fresh record at `nextAddr`, reference count
initialized to 1, holding `payload`; `nextAddr` moves past the record. -/
def Heap.alloc (h : Heap) (payload : List Nat) : Heap × Addr :=
  ({ recs := fun a => if a = h.nextAddr then some ⟨1, payload⟩ else h.recs a,
     nextAddr := h.nextAddr + bufOffset + payload.length + 1 }, h.nextAddr)

/-- The helper `bufferFromBuf`: recover the record base address from a payload address
by subtracting `offsetof(sharedBuffer, _buf)`. -/
def bufferFromBuf (buf : Addr) : Addr := buf - bufOffset

/-- Point update of the heap at base address `a` (`none` deletes the
record); all other addresses are untouched. -/
def Heap.update (h : Heap) (a : Addr) (f : sharedBuffer → Option sharedBuffer) :
    Heap :=
  { h with recs := fun q => if q = a then (h.recs a).bind f else h.recs q }

/-- The C function `FLSliceResult_New`: allocate a `sharedBuffer` with `size` payload bytes
(uninitialized in C, modelled as zeros) and return `{&sb->_buf, size}`; if
`malloc` fails (`mallocOK = false`) return the all-zero result `{}`. -/
def FLSliceResult_New (h : Heap) (size : Nat) (mallocOK : Bool) :
    Heap × FLSlice :=
  if !mallocOK then (h, ⟨none, []⟩)
  else
    let p := h.alloc (List.replicate size 0)
    (p.1, ⟨some (p.2 + bufOffset), List.replicate size 0⟩)

/-- The C function `FLSlice_Copy`: `{}` for a NULL slice, with no allocation; otherwise
allocate a fresh `sharedBuffer`, `memcpy` the source bytes into its payload
and return `{&sb->_buf, s.size}` (`{}` if `malloc` fails). -/
def FLSlice_Copy (h : Heap) (s : FLSlice) (mallocOK : Bool) : Heap × FLSlice :=
  match s.buf with
  | none => (h, ⟨none, []⟩)
  | some _ =>
    if !mallocOK then (h, ⟨none, []⟩)
    else
      let p := h.alloc s.data
      (p.1, ⟨some (p.2 + bufOffset), s.data⟩)

/-- The C function `_FLBuf_Retain`: no-op on NULL, else retain the owning record found by
`bufferFromBuf`. -/
def _FLBuf_Retain (h : Heap) (buf : Option Addr) : Heap :=
  match buf with
  | none => h
  | some p => h.update (bufferFromBuf p) (fun sb => some sb.retain)

/-- The C function `_FLBuf_Release`: no-op on NULL, else release (possibly freeing) the
owning record found by `bufferFromBuf`. -/
def _FLBuf_Release (h : Heap) (buf : Option Addr) : Heap :=
  match buf with
  | none => h
  | some p => h.update (bufferFromBuf p) sharedBuffer.release

/-- A retain or release step in a single record's lifecycle. -/
inductive BufOp where
  | retain : BufOp
  | release : BufOp
deriving Repr, DecidableEq

/-- One retain/release step of a single record's lifecycle state
(`some` = live, `none` = freed), with the number of frees it causes. -/
def bufStep (st : Option sharedBuffer) (op : BufOp) : Option sharedBuffer × Nat :=
  match st, op with
  | some sb, .retain => (some sb.retain, 0)
  | some sb, .release => (sb.release, if sb.release = none then 1 else 0)
  | none, _ => (none, 0)

/-- Run a sequence of retain/release steps against one record's state,
counting how many times it is freed. -/
def runOps : List BufOp → Option sharedBuffer → Option sharedBuffer × Nat
  | [], st => (st, 0)
  | op :: ops, st =>
    let rest := runOps ops (bufStep st op).1
    (rest.1, (bufStep st op).2 + rest.2)

/-- A concrete empty heap used by the witnesses. -/
def testHeap : Heap := ⟨fun _ => none, 0⟩

/-- A one-record heap used by the C9 witness: a record with count 1 at base
address 4, payload address 8. -/
def testHeap1 : Heap := ⟨fun a => if a = 4 then some ⟨1, [7]⟩ else none, 20⟩

/-- The C function `FLSlice_ToCString`: `precondition(capacity > 0)` is a fatal contract
violation, modelled as the `none` result; otherwise copy
`n = min(s.size, capacity - 1)` bytes of `s` into the caller's buffer
(`memcpy`, skipped when `n = 0`), store a NUL terminator right after them
(`buffer[n] = 0`) and return whether the whole slice fit (`n == s.size`).
The caller's buffer is modelled as a list holding at least `capacity`
bytes. -/
def FLSlice_ToCString (s : FLSlice) (buffer : List Nat) (capacity : Nat) :
    Option (List Nat × Bool) :=
  if capacity = 0 then none
  else
    let n := min s.size (capacity - 1)
    let buffer1 := if 0 < n then s.data.take n ++ buffer.drop n else buffer
    let buffer2 := buffer1.take n ++ [0] ++ buffer1.drop (n + 1)
    some (buffer2, n == s.size)

/-- The sample ten-byte slice used by the C6 witness. -/
def sampleSlice : FLSlice := ⟨some 16, [1, 2, 3, 4, 5, 6, 7, 8, 9, 10]⟩

theorem memcmp_antisym (a b : List Nat) (n : Nat) :
    memcmp a b n = -(memcmp b a n) := by
  induction a generalizing b n with
  | nil => cases n <;> cases b <;> simp [memcmp]
  | cons x xs ih =>
    cases n with
    | zero => simp [memcmp]
    | succ n =>
      cases b with
      | nil => simp [memcmp]
      | cons y ys =>
        by_cases h : x = y
        · subst h; simpa [memcmp] using ih ys n
        · have h' : y ≠ x := fun hyx => h hyx.symm
          simp [memcmp, h, h']

theorem listCmp_antisym (a b : List Nat) : listCmp a b = -(listCmp b a) := by
  induction a generalizing b with
  | nil => cases b <;> simp [listCmp]
  | cons x xs ih =>
    cases b with
    | nil => simp [listCmp]
    | cons y ys =>
      rcases Nat.lt_trichotomy x y with h | h | h
      · simp [listCmp, h, Nat.lt_asymm h, Nat.ne_of_lt h]
      · subst h; simpa [listCmp] using ih ys
      · simp [listCmp, h, Nat.lt_asymm h, Nat.ne_of_lt h]

theorem listCmp_self (a : List Nat) : listCmp a a = 0 := by
  induction a with
  | nil => simp [listCmp]
  | cons x xs ih => simp [listCmp, ih]

theorem listCmp_eq_zero_iff (a b : List Nat) : listCmp a b = 0 ↔ a = b := by
  constructor
  · intro h
    induction a generalizing b with
    | nil => cases b with
      | nil => rfl
      | cons y ys => simp [listCmp] at h
    | cons x xs ih =>
      cases b with
      | nil => simp [listCmp] at h
      | cons y ys =>
        rcases Nat.lt_trichotomy x y with hxy | hxy | hxy
        · simp [listCmp, hxy] at h
        · subst hxy
          simp [listCmp] at h
          simp [ih ys h]
        · simp [listCmp, hxy, Nat.lt_asymm hxy] at h
  · intro h; subst h; exact listCmp_self a

/-- The three possible values of `listCmp`. -/
theorem listCmp_trichotomy (a b : List Nat) :
    listCmp a b = -1 ∨ listCmp a b = 0 ∨ listCmp a b = 1 := by
  induction a generalizing b with
  | nil => cases b <;> simp [listCmp]
  | cons x xs ih =>
    cases b with
    | nil => simp [listCmp]
    | cons y ys =>
      by_cases h1 : x < y
      · simp [listCmp, h1]
      · by_cases h2 : y < x
        · simp [listCmp, h1, h2]
        · simpa [listCmp, h1, h2] using ih ys

theorem listCmp_trans (a b c : List Nat) (h1 : listCmp a b ≤ 0) (h2 : listCmp b c ≤ 0) :
    listCmp a c ≤ 0 := by
  induction a generalizing b c with
  | nil => cases c <;> simp [listCmp]
  | cons x xs ih =>
    cases b with
    | nil => simp [listCmp] at h1
    | cons y ys =>
      cases c with
      | nil => simp [listCmp] at h2
      | cons z zs =>
        by_cases hyx : y < x
        · simp [listCmp, hyx, Nat.lt_asymm hyx] at h1
        · by_cases hxy : x < y
          · by_cases hzy : z < y
            · simp [listCmp, hzy, Nat.lt_asymm hzy] at h2
            · have hxz : x < z := Nat.lt_of_lt_of_le hxy (Nat.le_of_not_lt hzy)
              simp [listCmp, hxz]
          · have hxy' : x = y := by omega
            subst hxy'
            simp [listCmp] at h1
            by_cases hzx : z < x
            · simp [listCmp, hzx, Nat.lt_asymm hzx] at h2
            · by_cases hxz : x < z
              · simp [listCmp, hxz]
              · have hxz' : x = z := by omega
                subst hxz'
                simp [listCmp] at h2 ⊢
                exact ih ys zs h1 h2

theorem memcmp_self (a : List Nat) (n : Nat) : memcmp a a n = 0 := by
  induction a generalizing n with
  | nil => cases n <;> rfl
  | cons x xs ih => cases n <;> simp [memcmp, ih]

theorem memcmp_cons (x y : Nat) (xs ys : List Nat) (n : Nat) :
    memcmp (x :: xs) (y :: ys) (n + 1)
      = if x = y then memcmp xs ys n else (x : Int) - y := rfl

/-- Comparing `memcmp` against `listCmp` when the first list is no longer than the
second: a zero result means the first list is a prefix, and a nonzero
result's sign matches the reference order. -/
theorem memcmp_listCmp_of_le (xs ys : List Nat) (h : xs.length ≤ ys.length) :
    (memcmp xs ys xs.length = 0 →
       listCmp xs ys = if xs.length = ys.length then 0 else -1) ∧
    (memcmp xs ys xs.length < 0 → listCmp xs ys = -1) ∧
    (0 < memcmp xs ys xs.length → listCmp xs ys = 1) := by
  induction xs generalizing ys with
  | nil =>
    cases ys with
    | nil => simp [memcmp, listCmp]
    | cons y ys => simp [memcmp, listCmp]
  | cons x xs ih =>
    cases ys with
    | nil => simp at h
    | cons y ys =>
      simp only [List.length_cons, Nat.add_le_add_iff_right] at h
      have := ih ys h
      by_cases hxy : x = y
      · subst hxy
        simp only [List.length_cons, memcmp_cons, if_pos rfl, listCmp,
          Nat.lt_irrefl, if_neg (Nat.lt_irrefl x), Nat.add_right_cancel_iff]
        exact this
      · rcases Nat.lt_or_ge x y with hlt | hge
        · have hm : memcmp (x :: xs) (y :: ys) (x :: xs).length = (x : Int) - y := by
            simp [memcmp_cons, hxy]
          have hl : listCmp (x :: xs) (y :: ys) = -1 := by simp [listCmp, hlt]
          rw [hm, hl]
          refine ⟨fun h0 => ?_, fun _ => rfl, fun hp => ?_⟩
          · exfalso; omega
          · exfalso; omega
        · have hylt : y < x := Nat.lt_of_le_of_ne hge (fun e => hxy e.symm)
          have hm : memcmp (x :: xs) (y :: ys) (x :: xs).length = (x : Int) - y := by
            simp [memcmp_cons, hxy]
          have hl : listCmp (x :: xs) (y :: ys) = 1 := by
            simp [listCmp, hylt, Nat.lt_asymm hylt]
          rw [hm, hl]
          refine ⟨fun h0 => ?_, fun hn => ?_, fun _ => rfl⟩
          · exfalso; omega
          · exfalso; omega

/-- Antisymmetry of the compiled comparison, at the level of exact values. -/
theorem FLSlice_Compare_antisym (a b : FLSlice) :
    FLSlice_Compare a b = -(FLSlice_Compare b a) := by
  unfold FLSlice_Compare
  rcases Nat.lt_trichotomy a.size b.size with h | h | h
  · rw [if_neg (Nat.ne_of_lt h), if_pos h, if_neg (Nat.ne_of_gt h),
      if_neg (Nat.lt_asymm h)]
    have hm := memcmp_antisym a.data b.data a.size
    by_cases hz : memcmp a.data b.data a.size = 0
    · have hz' : memcmp b.data a.data a.size = 0 := by omega
      simp [hz, hz']
    · simp only [ne_eq, hz, not_false_eq_true, if_pos]
      have hz' : memcmp b.data a.data a.size ≠ 0 := by omega
      simp [hz']
      omega
  · rw [if_pos h, if_pos h.symm, memcmp_antisym a.data b.data, h]
  · rw [if_neg (Nat.ne_of_gt h), if_neg (Nat.lt_asymm h), if_neg (Nat.ne_of_lt h),
      if_pos h]
    have hm := memcmp_antisym a.data b.data b.size
    by_cases hz : memcmp a.data b.data b.size = 0
    · simp [hz]
      rw [show memcmp b.data a.data b.size = 0 by omega]
      simp
    · have hz' : memcmp b.data a.data b.size ≠ 0 := by omega
      simp [hz, hz']
      omega

/-- Sign correspondence between the compiled comparison and the reference
order, assuming the first slice is no longer. -/
theorem FLSlice_Compare_listCmp_le (a b : FLSlice) (h : a.size ≤ b.size) :
    (FLSlice_Compare a b < 0 → listCmp a.data b.data = -1) ∧
    (FLSlice_Compare a b = 0 → listCmp a.data b.data = 0) ∧
    (0 < FLSlice_Compare a b → listCmp a.data b.data = 1) := by
  have M := memcmp_listCmp_of_le a.data b.data h
  rcases Nat.eq_or_lt_of_le h with heq | hlt
  · have hc : FLSlice_Compare a b = memcmp a.data b.data a.size := by
      unfold FLSlice_Compare; rw [if_pos heq]
    rw [hc]
    refine ⟨fun hneg => M.2.1 hneg, fun hz => ?_, fun hpos => M.2.2 hpos⟩
    have heq' : a.data.length = b.data.length := heq
    have hL := M.1 hz
    rw [hL, if_pos heq']
  · have hne : a.size ≠ b.size := Nat.ne_of_lt hlt
    have hc : FLSlice_Compare a b =
        (if memcmp a.data b.data a.size ≠ 0 then memcmp a.data b.data a.size
         else -1) := by
      unfold FLSlice_Compare; rw [if_neg hne, if_pos hlt]
    rw [hc]
    by_cases hz : memcmp a.data b.data a.size = 0
    · rw [if_neg (not_not_intro hz)]
      have hne' : a.data.length ≠ b.data.length := hne
      have hL := M.1 hz
      rw [if_neg hne'] at hL
      exact ⟨fun _ => hL, fun h0 => absurd h0 (by decide),
             fun hp => absurd hp (by decide)⟩
    · rw [if_pos hz]
      exact ⟨M.2.1, fun h0 => absurd h0 hz, M.2.2⟩

/-- Sign correspondence between the compiled comparison and the reference
order, unconditionally. -/
theorem FLSlice_Compare_listCmp (a b : FLSlice) :
    (FLSlice_Compare a b < 0 → listCmp a.data b.data = -1) ∧
    (FLSlice_Compare a b = 0 → listCmp a.data b.data = 0) ∧
    (0 < FLSlice_Compare a b → listCmp a.data b.data = 1) := by
  rcases le_or_lt a.size b.size with h | h
  · exact FLSlice_Compare_listCmp_le a b h
  · have H := FLSlice_Compare_listCmp_le b a (Nat.le_of_lt h)
    have ha := FLSlice_Compare_antisym a b
    have hl := listCmp_antisym a.data b.data
    refine ⟨fun hneg => ?_, fun hz => ?_, fun hpos => ?_⟩
    · rw [hl, H.2.2 (by omega)]
    · rw [hl, H.2.1 (by omega)]; decide
    · rw [hl, H.1 (by omega)]; decide

/-- Trichotomy glue: pointwise sign implications into a value in
`{-1,0,1}` upgrade to equivalences. -/
theorem sign_glue (m v : Int)
    (h1 : m < 0 → v = -1) (h2 : m = 0 → v = 0) (h3 : 0 < m → v = 1) :
    (m < 0 ↔ v = -1) ∧ (m = 0 ↔ v = 0) ∧ (0 < m ↔ v = 1) := by
  rcases lt_trichotomy m 0 with h | h | h
  · have hv := h1 h; subst hv; refine ⟨?_, ?_, ?_⟩ <;> omega
  · have hv := h2 h; subst hv; refine ⟨?_, ?_, ?_⟩ <;> omega
  · have hv := h3 h; subst hv; refine ⟨?_, ?_, ?_⟩ <;> omega

/-- The sign of `FLSlice_Compare` and the reference order, as equivalences. -/
theorem FLSlice_Compare_listCmp_iff (a b : FLSlice) :
    (FLSlice_Compare a b < 0 ↔ listCmp a.data b.data = -1) ∧
    (FLSlice_Compare a b = 0 ↔ listCmp a.data b.data = 0) ∧
    (0 < FLSlice_Compare a b ↔ listCmp a.data b.data = 1) :=
  sign_glue _ _ (FLSlice_Compare_listCmp a b).1
    (FLSlice_Compare_listCmp a b).2.1 (FLSlice_Compare_listCmp a b).2.2

/-- A strict prefix sorts strictly first in the reference order. -/
theorem listCmp_strict_pref_neg (xs ys : List Nat) (h : xs <+: ys)
    (hlen : xs.length < ys.length) : listCmp xs ys = -1 := by
  induction xs generalizing ys with
  | nil =>
    cases ys with
    | nil => simp at hlen
    | cons y ys => simp [listCmp]
  | cons x xs ih =>
    cases ys with
    | nil => simp at hlen
    | cons y ys =>
      obtain ⟨t, ht⟩ := h
      have hx : x = y := by
        have := congrArg (fun l => l.head?) ht
        simpa using this
      subst hx
      have hs : xs ++ t = ys := by
        have := congrArg List.tail ht
        simpa using this
      simp only [listCmp, Nat.lt_irrefl, if_neg (Nat.lt_irrefl x)]
      exact ih ys ⟨t, hs⟩ (by simpa using hlen)

theorem memcmp_eq_zero_iff_of_len_eq (xs ys : List Nat) (h : xs.length = ys.length) :
    memcmp xs ys xs.length = 0 ↔ xs = ys := by
  constructor
  · intro hz
    have hL := (memcmp_listCmp_of_le xs ys (le_of_eq h)).1 hz
    rw [if_pos h] at hL
    exact (listCmp_eq_zero_iff xs ys).1 hL
  · intro he; subst he; exact memcmp_self xs _

/-- C2: `FLSlice_Compare` orders slices lexicographically byte-wise over the
common prefix of length `min a.size b.size`, then by length: its sign agrees
everywhere with the reference order `listCmp` from the spec (first differing
byte as unsigned values decides; a tie makes the shorter sort first); in
particular a strict byte-wise prefix compares strictly below. -/
theorem C2_compare_lexicographic (a b : FLSlice) :
    (FLSlice_Compare a b < 0 ↔ listCmp a.data b.data = -1) ∧
    (FLSlice_Compare a b = 0 ↔ listCmp a.data b.data = 0) ∧
    (0 < FLSlice_Compare a b ↔ listCmp a.data b.data = 1) ∧
    (a.data <+: b.data → a.size < b.size → FLSlice_Compare a b < 0) := by
  have H := FLSlice_Compare_listCmp_iff a b
  refine ⟨H.1, H.2.1, H.2.2, fun hpre hlen => ?_⟩
  exact H.1.mpr (listCmp_strict_pref_neg a.data b.data hpre hlen)

/-- Witness for C2 at `{"ab"} ≺ {"abc"}`: the strict-prefix hypothesis holds
and the comparison is negative. -/
theorem C2_compare_lexicographic_witness :
    FLSlice_Compare ⟨some 16, [97, 98]⟩ ⟨some 32, [97, 98, 99]⟩ < 0 :=
  (C2_compare_lexicographic ⟨some 16, [97, 98]⟩ ⟨some 32, [97, 98, 99]⟩).2.2.2
    (by decide) (by decide)

/-- C3 counterexample: `FLSlice_Compare` on the one-byte slices `[0]` and
`[5]` returns the `memcmp` byte difference `-5`, which is none of `-1`, `0`,
`+1`. -/
theorem C3_counterexample :
    ¬(FLSlice_Compare ⟨some 16, [0]⟩ ⟨some 32, [5]⟩ = -1 ∨
      FLSlice_Compare ⟨some 16, [0]⟩ ⟨some 32, [5]⟩ = 0 ∨
      FLSlice_Compare ⟨some 16, [0]⟩ ⟨some 32, [5]⟩ = 1) := by decide

/-- C3 (amended): `FLSlice_Compare` returns a value that is negative, zero,
or positive (never anything whose sign disagrees with the reference order),
and it is exactly `-1` or `+1` in the length tie-break cases; but its
magnitude is in general the raw `memcmp` difference, not confined to
`{-1, 0, +1}`. -/
theorem C3_compare_sign (a b : FLSlice) :
    (FLSlice_Compare a b < 0 ∨ FLSlice_Compare a b = 0 ∨
       0 < FLSlice_Compare a b) ∧
    (a.size < b.size → memcmp a.data b.data a.size = 0 →
       FLSlice_Compare a b = -1) ∧
    (b.size < a.size → memcmp a.data b.data b.size = 0 →
       FLSlice_Compare a b = 1) := by
  refine ⟨by omega, fun hlt hz => ?_, fun hlt hz => ?_⟩
  · unfold FLSlice_Compare
    rw [if_neg (Nat.ne_of_lt hlt), if_pos hlt]
    simp [hz]
  · unfold FLSlice_Compare
    rw [if_neg (Nat.ne_of_gt hlt), if_neg (Nat.lt_asymm hlt)]
    simp [hz]

/-- Witness for C3 (amended) at `{"ab"}` versus `{"abc"}`: the length
tie-break returns exactly `-1`. -/
theorem C3_compare_sign_witness :
    FLSlice_Compare ⟨some 16, [97, 98]⟩ ⟨some 32, [97, 98, 99]⟩ = -1 :=
  (C3_compare_sign ⟨some 16, [97, 98]⟩ ⟨some 32, [97, 98, 99]⟩).2.1
    (by decide) (by decide)

/-- C4: `FLSlice_Compare` is a consistent total order: exact antisymmetry
`compare a b = -(compare b a)`, reflexivity `compare a a = 0`, and
transitivity of `compare · · ≤ 0`. -/
theorem C4_compare_total_order :
    (∀ a b : FLSlice, FLSlice_Compare a b = -(FLSlice_Compare b a)) ∧
    (∀ a : FLSlice, FLSlice_Compare a a = 0) ∧
    (∀ a b c : FLSlice, FLSlice_Compare a b ≤ 0 → FLSlice_Compare b c ≤ 0 →
       FLSlice_Compare a c ≤ 0) := by
  refine ⟨FLSlice_Compare_antisym, fun a => ?_, fun a b c h1 h2 => ?_⟩
  · unfold FLSlice_Compare
    rw [if_pos rfl]
    exact memcmp_self a.data a.size
  · have Hab := FLSlice_Compare_listCmp_iff a b
    have Hbc := FLSlice_Compare_listCmp_iff b c
    have Hac := FLSlice_Compare_listCmp_iff a c
    have l1 : listCmp a.data b.data ≤ 0 := by
      rcases lt_or_eq_of_le h1 with h | h
      · rw [Hab.1.mp h]; decide
      · rw [Hab.2.1.mp h]
    have l2 : listCmp b.data c.data ≤ 0 := by
      rcases lt_or_eq_of_le h2 with h | h
      · rw [Hbc.1.mp h]; decide
      · rw [Hbc.2.1.mp h]
    have l3 := listCmp_trans a.data b.data c.data l1 l2
    rcases listCmp_trichotomy a.data c.data with h | h | h
    · exact le_of_lt (Hac.1.mpr h)
    · exact le_of_eq (Hac.2.1.mpr h)
    · rw [h] at l3; exact absurd l3 (by decide)

/-- Witness for C4's transitivity at `{"a"} ≤ {"ab"} ≤ {"b"}`. -/
theorem C4_compare_total_order_witness :
    FLSlice_Compare ⟨some 16, [97]⟩ ⟨some 48, [98]⟩ ≤ 0 :=
  C4_compare_total_order.2.2 ⟨some 16, [97]⟩ ⟨some 32, [97, 98]⟩
    ⟨some 48, [98]⟩ (by decide) (by decide)

/-- C5: `FLSlice_Equal a b` holds iff `FLSlice_Compare a b = 0`, iff the
lengths and all bytes match; zero-length slices are equal regardless of
their pointers. -/
theorem C5_equal_iff (a b : FLSlice) :
    (FLSlice_Equal a b = true ↔ FLSlice_Compare a b = 0) ∧
    (FLSlice_Equal a b = true ↔ a.data = b.data) ∧
    (a.size = 0 → b.size = 0 → FLSlice_Equal a b = true) := by
  have hdata : FLSlice_Equal a b = true ↔ a.data = b.data := by
    unfold FLSlice_Equal
    rw [Bool.and_eq_true, beq_iff_eq, beq_iff_eq]
    constructor
    · rintro ⟨hlen, hz⟩
      exact (memcmp_eq_zero_iff_of_len_eq a.data b.data hlen).1 hz
    · intro he
      refine ⟨by rw [FLSlice.size, FLSlice.size, he], ?_⟩
      exact (memcmp_eq_zero_iff_of_len_eq a.data b.data
        (by rw [he])).2 he
  have H := FLSlice_Compare_listCmp_iff a b
  refine ⟨?_, hdata, fun ha hb => ?_⟩
  · rw [hdata, H.2.1, listCmp_eq_zero_iff]
  · have ha' : a.data = [] := List.eq_nil_of_length_eq_zero ha
    have hb' : b.data = [] := List.eq_nil_of_length_eq_zero hb
    rw [hdata, ha', hb']

/-- Witness for C5's zero-length case at two empty slices with different
pointers. -/
theorem C5_equal_iff_witness :
    FLSlice_Equal ⟨some 16, []⟩ ⟨some 32, []⟩ = true :=
  (C5_equal_iff ⟨some 16, []⟩ ⟨some 32, []⟩).2.2 (by decide) (by decide)

theorem runOps_append (l1 l2 : List BufOp) (st : Option sharedBuffer) :
    runOps (l1 ++ l2) st =
      ((runOps l2 (runOps l1 st).1).1,
       (runOps l1 st).2 + (runOps l2 (runOps l1 st).1).2) := by
  induction l1 generalizing st with
  | nil => simp [runOps]
  | cons op ops ih =>
    simp only [List.cons_append, List.append_eq, runOps, ih, Nat.add_assoc]

theorem runOps_retains (k c : Nat) (d : List Nat) (h : c + k < UINT32_MOD) :
    runOps (List.replicate k .retain) (some ⟨c, d⟩) = (some ⟨c + k, d⟩, 0) := by
  induction k generalizing c with
  | zero => simp [runOps]
  | succ k ih =>
    have hstep : sharedBuffer.retain ⟨c, d⟩ = ⟨c + 1, d⟩ := by
      simp only [sharedBuffer.retain]
      have hc : c + 1 < UINT32_MOD := by omega
      simp [Nat.mod_eq_of_lt hc]
    rw [List.replicate_succ]
    simp only [runOps, bufStep, hstep]
    rw [ih (c + 1) (by omega), show c + 1 + k = c + (k + 1) from by omega]
    simp

theorem sharedBuffer_release_eq (c : Nat) (d : List Nat) (h1 : 1 ≤ c)
    (h2 : c < UINT32_MOD) :
    sharedBuffer.release ⟨c, d⟩ = if c = 1 then none else some ⟨c - 1, d⟩ := by
  simp only [sharedBuffer.release]
  have hm : (c + (UINT32_MOD - 1)) % UINT32_MOD = c - 1 := by
    have h2' : c < 2 ^ 32 := h2
    simp only [UINT32_MOD]
    omega
  rw [hm]
  by_cases hc : c = 1
  · subst hc; simp
  · rw [if_neg (by omega), if_neg hc]

theorem runOps_releases_live (j c : Nat) (d : List Nat) (hj : j < c)
    (hc : c < UINT32_MOD) :
    runOps (List.replicate j .release) (some ⟨c, d⟩) = (some ⟨c - j, d⟩, 0) := by
  induction j generalizing c with
  | zero => simp [runOps]
  | succ j ih =>
    have hrel : sharedBuffer.release ⟨c, d⟩ = some ⟨c - 1, d⟩ := by
      rw [sharedBuffer_release_eq c d (by omega) hc, if_neg (by omega)]
    rw [List.replicate_succ]
    simp only [runOps, bufStep, hrel]
    rw [ih (c - 1) (by omega) (by omega),
      show c - 1 - j = c - (j + 1) from by omega]
    simp

theorem runOps_releases_free (c : Nat) (d : List Nat) (h1 : 1 ≤ c)
    (hc : c < UINT32_MOD) :
    runOps (List.replicate c .release) (some ⟨c, d⟩) = (none, 1) := by
  have hsplit : List.replicate c (BufOp.release) =
      List.replicate (c - 1) .release ++ [.release] := by
    rw [← List.replicate_succ']
    congr 1
    omega
  have hlive := runOps_releases_live (c - 1) c d (by omega) hc
  have hrel : sharedBuffer.release ⟨c - (c - 1), d⟩ = none := by
    rw [show c - (c - 1) = 1 from by omega,
      sharedBuffer_release_eq 1 d (by omega) (by simp only [UINT32_MOD]; omega)]
    simp
  rw [hsplit, runOps_append, hlive]
  simp [runOps, bufStep, hrel]

/-- C1: a `sharedBuffer`'s reference count starts at 1 on allocation; each
retain increments it and each release decrements it; the record is freed
exactly once, at the release whose decrement reaches 0. In particular,
release immediately after allocation (`k = 0`, no retain) frees the buffer
exactly once, and `k` retains followed by `k + 1` releases leave the record
live (never freed) through the first `k` releases and free it exactly once
at the final one. -/
theorem C1_refcount_lifecycle (k : Nat) (d : List Nat) (h : Heap) (size : Nat)
    (hk : k + 1 < UINT32_MOD) :
    ((FLSliceResult_New h size true).1.recs h.nextAddr
       = some ⟨1, List.replicate size 0⟩) ∧
    (∀ j, j ≤ k →
       runOps (List.replicate k .retain ++ List.replicate j .release)
         (some ⟨1, d⟩) = (some ⟨k + 1 - j, d⟩, 0)) ∧
    (runOps (List.replicate k .retain ++ List.replicate (k + 1) .release)
       (some ⟨1, d⟩) = (none, 1)) := by
  refine ⟨?_, fun j hj => ?_, ?_⟩
  · simp [FLSliceResult_New, Heap.alloc]
  · rw [runOps_append]
    simp only [runOps_retains k 1 d (by omega)]
    by_cases hj0 : j = 0
    · subst hj0
      simp [runOps]
      omega
    · simp only [runOps_releases_live j (1 + k) d (by omega) (by omega)]
      simp only [show 1 + k - j = k + 1 - j from by omega]
  · rw [runOps_append]
    simp only [runOps_retains k 1 d (by omega)]
    rw [show k + 1 = 1 + k from by omega]
    simp only [runOps_releases_free (1 + k) d (by omega) (by omega)]

/-- Witness for C1 at `k = 2`: two retains then three releases on a fresh
record (count 1) free it exactly once; after the first two of the three
releases it is still live with count 1. -/
theorem C1_refcount_lifecycle_witness :
    runOps (List.replicate 2 .retain ++ List.replicate 3 .release)
      (some ⟨1, [9]⟩) = (none, 1) ∧
    runOps (List.replicate 2 .retain ++ List.replicate 2 .release)
      (some ⟨1, [9]⟩) = (some ⟨1, [9]⟩, 0) :=
  ⟨(C1_refcount_lifecycle 2 [9] testHeap 3 (by decide)).2.2,
   (C1_refcount_lifecycle 2 [9] testHeap 3 (by decide)).2.1 2 (by decide)⟩

/-- C7: `FLSlice_Copy` of a NULL slice returns the null slice without
touching the heap; otherwise, when `malloc` succeeds, it returns a slice
with identical bytes (hence identical length), backed by a freshly
allocated `sharedBuffer` (reference count 1, payload a copy of the source
bytes) whose payload address lies past every previously dispensed address —
in particular it differs from the source pointer, which points into
previously dispensed memory. -/
theorem C7_copy_deep (h : Heap) (s : FLSlice) :
    (s.buf = none → FLSlice_Copy h s true = (h, ⟨none, []⟩)) ∧
    (∀ p, s.buf = some p →
       ((FLSlice_Copy h s true).2.data = s.data ∧
        (FLSlice_Copy h s true).2.size = s.size ∧
        (FLSlice_Copy h s true).2.buf = some (h.nextAddr + bufOffset) ∧
        (FLSlice_Copy h s true).1.recs h.nextAddr = some ⟨1, s.data⟩ ∧
        (p < h.nextAddr → (FLSlice_Copy h s true).2.buf ≠ s.buf))) := by
  constructor
  · intro hnull
    unfold FLSlice_Copy
    rw [hnull]
  · intro p hp
    have hc : FLSlice_Copy h s true =
        ((h.alloc s.data).1, ⟨some (h.nextAddr + bufOffset), s.data⟩) := by
      unfold FLSlice_Copy
      rw [hp]
      rfl
    rw [hc]
    refine ⟨rfl, rfl, rfl, by simp [Heap.alloc], ?_⟩
    intro hlt heq
    rw [hp] at heq
    simp only [Option.some.injEq, bufOffset] at heq
    subst heq
    exact absurd hlt (Nat.not_lt.mpr (Nat.le_add_right _ _))

/-- Witness for C7: copying a one-byte slice at address 2 on the empty heap
yields a slice at the fresh payload address, different from the source. -/
theorem C7_copy_deep_witness :
    (FLSlice_Copy testHeap1 ⟨some 2, [42]⟩ true).2.buf ≠ (⟨some 2, [42]⟩ : FLSlice).buf := by
  have H := (C7_copy_deep testHeap1 ⟨some 2, [42]⟩).2 2 rfl
  exact H.2.2.2.2 (by decide)

/-- C8 counterexample: on the empty heap, `newBuffer(0)` with `malloc`
succeeding returns a slice whose pointer is the non-null payload address,
not the all-zero slice the claim asserts — so a successful zero-size
allocation is distinguishable from an allocation failure. -/
theorem C8_counterexample :
    (FLSliceResult_New testHeap 0 true).2.buf ≠ none := by decide

/-- C8 (amended): `newBuffer` returns the all-zero slice `{NULL, 0}` exactly
when the underlying allocation fails — reported via the return value, never
fatal, and with the heap left untouched; a successful `newBuffer(size)`,
including `size == 0`, instead returns the freshly allocated non-null
payload pointer with length `size`, so the two outcomes are distinguishable
by pointer nullness. -/
theorem C8_newbuffer_failure (h : Heap) (size : Nat) :
    (FLSliceResult_New h size false = (h, ⟨none, []⟩)) ∧
    ((FLSliceResult_New h size true).2.buf = some (h.nextAddr + bufOffset)) ∧
    ((FLSliceResult_New h size true).2.size = size) := by
  refine ⟨rfl, rfl, ?_⟩
  simp [FLSliceResult_New, Heap.alloc, FLSlice.size]

/-- C9: `_FLBuf_Retain` and `_FLBuf_Release` are no-ops on NULL (the heap
is unchanged); on a non-null payload address `p` they act exactly on the
owning record recovered at `bufferFromBuf p = p - offsetof(_buf)` — retain
bumps its reference count, release decrements it (freeing the record when
the count reaches 0) — and no other record is touched. -/
theorem C9_retain_release_by_payload (h : Heap) (p : Addr) :
    (_FLBuf_Retain h none = h) ∧
    (_FLBuf_Release h none = h) ∧
    ((_FLBuf_Retain h (some p)).recs (bufferFromBuf p)
       = (h.recs (bufferFromBuf p)).map sharedBuffer.retain) ∧
    ((_FLBuf_Release h (some p)).recs (bufferFromBuf p)
       = (h.recs (bufferFromBuf p)).bind sharedBuffer.release) ∧
    (∀ q, q ≠ bufferFromBuf p →
       (_FLBuf_Retain h (some p)).recs q = h.recs q ∧
       (_FLBuf_Release h (some p)).recs q = h.recs q) := by
  refine ⟨rfl, rfl, ?_, ?_, fun q hq => ⟨?_, ?_⟩⟩
  · simp only [_FLBuf_Retain, Heap.update, if_pos rfl]
    cases h.recs (bufferFromBuf p) <;> rfl
  · simp [_FLBuf_Release, Heap.update]
  · simp [_FLBuf_Retain, Heap.update, hq]
  · simp [_FLBuf_Release, Heap.update, hq]

/-- Witness for C9 at payload address 8 on a one-record heap: releasing
frees the record at base 4, and the record at base 0 (absent) is untouched
at the unrelated address 0. -/
theorem C9_retain_release_by_payload_witness :
    ((_FLBuf_Release testHeap1 (some 8)).recs (bufferFromBuf 8)
       = (testHeap1.recs (bufferFromBuf 8)).bind sharedBuffer.release) ∧
    (_FLBuf_Retain testHeap1 (some 8)).recs 0 = testHeap1.recs 0 :=
  ⟨(C9_retain_release_by_payload testHeap1 8).2.2.2.1,
   ((C9_retain_release_by_payload testHeap1 8).2.2.2.2 0 (by decide)).1⟩

/-- C10: a successful `newBuffer(0)` returns a slice with a non-null
pointer and length 0, while a failed allocation returns a null pointer with
length 0: the nullness of the pointer, not the size, distinguishes the two
outcomes. -/
theorem C10_zero_size_distinguishable (h : Heap) :
    ((FLSliceResult_New h 0 true).2.buf ≠ none) ∧
    ((FLSliceResult_New h 0 true).2.size = 0) ∧
    ((FLSliceResult_New h 0 false).2.buf = none) ∧
    ((FLSliceResult_New h 0 false).2.size = 0) := by
  refine ⟨?_, rfl, rfl, rfl⟩
  intro hcontra
  simp [FLSliceResult_New, Heap.alloc] at hcontra

/-- Closed form of `FLSlice_ToCString` on a big-enough buffer. -/
theorem FLSlice_ToCString_eq (s : FLSlice) (buffer : List Nat) (capacity : Nat)
    (hcap : 0 < capacity) :
    FLSlice_ToCString s buffer capacity =
      some (s.data.take (min s.size (capacity - 1)) ++ [0] ++
              buffer.drop (min s.size (capacity - 1) + 1),
            min s.size (capacity - 1) == s.size) := by
  have hne : capacity ≠ 0 := by omega
  simp only [FLSlice_ToCString, if_neg hne]
  by_cases h0 : 0 < min s.size (capacity - 1)
  · rw [if_pos h0]
    have hns : min s.size (capacity - 1) ≤ s.data.length := min_le_left _ _
    have hlen : (s.data.take (min s.size (capacity - 1))).length
        = min s.size (capacity - 1) := by
      rw [List.length_take]
      omega
    have hd : List.drop (min s.size (capacity - 1) + 1)
        (s.data.take (min s.size (capacity - 1))
          ++ List.drop (min s.size (capacity - 1)) buffer)
        = List.drop 1 (List.drop (min s.size (capacity - 1)) buffer) := by
      rw [show min s.size (capacity - 1) + 1
            = (s.data.take (min s.size (capacity - 1))).length + 1 from by
              rw [hlen],
        List.drop_append]
    rw [List.take_left' hlen, hd, List.drop_drop]
  · rw [if_neg h0]
    have h0' : min s.size (capacity - 1) = 0 := by omega
    rw [h0']
    simp

/-- C6: under the precondition `capacity > 0` (whose violation,
`capacity = 0`, is a fatal contract failure, modelled as `none`),
`FLSlice_ToCString` copies exactly `min(s.size, capacity - 1)` bytes of `s`
into the buffer, writes a NUL terminator immediately after them, leaves the
rest of the buffer untouched, and returns `true` iff the full slice fit
without truncation (`s.size < capacity`). -/
theorem C6_toFixedBuffer (s : FLSlice) (buffer : List Nat) (capacity : Nat)
    (hcap : 0 < capacity) (hbuf : capacity ≤ buffer.length) :
    (FLSlice_ToCString s buffer 0 = none) ∧
    (∃ out fit, FLSlice_ToCString s buffer capacity = some (out, fit) ∧
       out.take (min s.size (capacity - 1)) =
         s.data.take (min s.size (capacity - 1)) ∧
       out[min s.size (capacity - 1)]? = some 0 ∧
       out.drop (min s.size (capacity - 1) + 1) =
         buffer.drop (min s.size (capacity - 1) + 1) ∧
       out.length = buffer.length ∧
       (fit = true ↔ s.size < capacity)) := by
  refine ⟨rfl, ?_⟩
  have hns : min s.size (capacity - 1) ≤ s.data.length := min_le_left _ _
  have hlen : (s.data.take (min s.size (capacity - 1))).length
      = min s.size (capacity - 1) := by
    rw [List.length_take]
    omega
  refine ⟨_, _, FLSlice_ToCString_eq s buffer capacity hcap, ?_, ?_, ?_, ?_, ?_⟩
  · rw [List.append_assoc, List.take_left' hlen]
  · rw [List.append_assoc]
    rw [List.getElem?_append_right (le_of_eq hlen)]
    rw [hlen]
    simp
  · rw [List.drop_left' (by simp [hlen])]
  · have hcb : min s.size (capacity - 1) + 1 ≤ buffer.length := by omega
    simp only [List.length_append, List.length_drop, hlen, List.length_cons,
      List.length_nil]
    omega
  · rw [beq_iff_eq]
    omega

/-- Witness for C6, at the claim's two concrete cases: a ten-byte slice
into a five-byte buffer (truncated, `fit = false`: only 4 content bytes and
the terminator are written) and into an eleven-byte buffer (`fit = true`). -/
theorem C6_toFixedBuffer_witness :
    (∃ out fit,
       FLSlice_ToCString sampleSlice (List.replicate 5 7) 5 = some (out, fit) ∧
       out.take (min sampleSlice.size (5 - 1)) =
         sampleSlice.data.take (min sampleSlice.size (5 - 1)) ∧
       out[min sampleSlice.size (5 - 1)]? = some 0 ∧
       out.drop (min sampleSlice.size (5 - 1) + 1) =
         (List.replicate 5 7).drop (min sampleSlice.size (5 - 1) + 1) ∧
       out.length = (List.replicate 5 7).length ∧
       (fit = true ↔ sampleSlice.size < 5)) ∧
    (∃ out fit,
       FLSlice_ToCString sampleSlice (List.replicate 11 7) 11 = some (out, fit) ∧
       out.take (min sampleSlice.size (11 - 1)) =
         sampleSlice.data.take (min sampleSlice.size (11 - 1)) ∧
       out[min sampleSlice.size (11 - 1)]? = some 0 ∧
       out.drop (min sampleSlice.size (11 - 1) + 1) =
         (List.replicate 11 7).drop (min sampleSlice.size (11 - 1) + 1) ∧
       out.length = (List.replicate 11 7).length ∧
       (fit = true ↔ sampleSlice.size < 11)) :=
  ⟨(C6_toFixedBuffer sampleSlice (List.replicate 5 7) 5
      (by decide) (by decide)).2,
   (C6_toFixedBuffer sampleSlice (List.replicate 11 7) 11
      (by decide) (by decide)).2⟩
